import Mathlib

/-
Verification development for the crystallographic symmetry-operation engine
described in spec.md of the gemmi repository.  The repository snapshot under
src/ contains only the test suite (src/tests/test_sym.py); the engine itself
(triplet codec, operation algebra, Hall interpreter, group closure, space-group
table, grid factors) is not among the source files.  All definitions below are
therefore modelled from the spec (sections 3, 4.1-4.6, 7), with the constant
choices (TDEN = 24, table entries, Hall symbols) taken from the spec's examples
and the values the test suite pins down.
-/

set_option maxRecDepth 10000

/-- Modelled from the spec: the fixed translation denominator `D` (`TDEN`),
"implementation constant, e.g. 24, chosen to exactly represent all
quarter/sixth fractions"; the test suite uses `gemmi.Op.TDEN` with
`TDEN//2`, `TDEN//4`, `TDEN//3`, `TDEN//6` all exact, so `TDEN = 24`. -/
def TDEN : Int := 24

/-- Modelled from the spec: a 3-integer translation numerator vector. -/
@[ext]
structure Vec3 where
  x : Int
  y : Int
  z : Int
deriving DecidableEq, Repr

/-- Modelled from the spec: a 3x3 integer rotation matrix, stored row-wise. -/
@[ext]
structure Mat3 where
  r0 : Vec3
  r1 : Vec3
  r2 : Vec3
deriving DecidableEq, Repr

def Vec3.zero : Vec3 := ⟨0, 0, 0⟩

def Vec3.add (u v : Vec3) : Vec3 := ⟨u.x + v.x, u.y + v.y, u.z + v.z⟩

def Vec3.sub (u v : Vec3) : Vec3 := ⟨u.x - v.x, u.y - v.y, u.z - v.z⟩

def Vec3.smul (k : Int) (v : Vec3) : Vec3 := ⟨k * v.x, k * v.y, k * v.z⟩

/-- Componentwise reduction into the canonical range `[0, d)`. -/
def Vec3.emod (v : Vec3) (d : Int) : Vec3 := ⟨v.x % d, v.y % d, v.z % d⟩

def Mat3.id : Mat3 := ⟨⟨1, 0, 0⟩, ⟨0, 1, 0⟩, ⟨0, 0, 1⟩⟩

def Mat3.smul (k : Int) (m : Mat3) : Mat3 :=
  ⟨Vec3.smul k m.r0, Vec3.smul k m.r1, Vec3.smul k m.r2⟩

def Mat3.mulVec (m : Mat3) (v : Vec3) : Vec3 :=
  ⟨m.r0.x * v.x + m.r0.y * v.y + m.r0.z * v.z,
   m.r1.x * v.x + m.r1.y * v.y + m.r1.z * v.z,
   m.r2.x * v.x + m.r2.y * v.y + m.r2.z * v.z⟩

def Mat3.mul (m n : Mat3) : Mat3 :=
  ⟨⟨m.r0.x * n.r0.x + m.r0.y * n.r1.x + m.r0.z * n.r2.x,
    m.r0.x * n.r0.y + m.r0.y * n.r1.y + m.r0.z * n.r2.y,
    m.r0.x * n.r0.z + m.r0.y * n.r1.z + m.r0.z * n.r2.z⟩,
   ⟨m.r1.x * n.r0.x + m.r1.y * n.r1.x + m.r1.z * n.r2.x,
    m.r1.x * n.r0.y + m.r1.y * n.r1.y + m.r1.z * n.r2.y,
    m.r1.x * n.r0.z + m.r1.y * n.r1.z + m.r1.z * n.r2.z⟩,
   ⟨m.r2.x * n.r0.x + m.r2.y * n.r1.x + m.r2.z * n.r2.x,
    m.r2.x * n.r0.y + m.r2.y * n.r1.y + m.r2.z * n.r2.y,
    m.r2.x * n.r0.z + m.r2.y * n.r1.z + m.r2.z * n.r2.z⟩⟩

/-- Determinant of the integer rotation matrix. -/
def Mat3.det (m : Mat3) : Int :=
  m.r0.x * (m.r1.y * m.r2.z - m.r1.z * m.r2.y)
  - m.r0.y * (m.r1.x * m.r2.z - m.r1.z * m.r2.x)
  + m.r0.z * (m.r1.x * m.r2.y - m.r1.y * m.r2.x)

/-- Adjugate (transposed cofactor matrix); `m * adj m = det m * I`. -/
def Mat3.adj (m : Mat3) : Mat3 :=
  ⟨⟨m.r1.y * m.r2.z - m.r1.z * m.r2.y,
    -(m.r0.y * m.r2.z - m.r0.z * m.r2.y),
    m.r0.y * m.r1.z - m.r0.z * m.r1.y⟩,
   ⟨-(m.r1.x * m.r2.z - m.r1.z * m.r2.x),
    m.r0.x * m.r2.z - m.r0.z * m.r2.x,
    -(m.r0.x * m.r1.z - m.r0.z * m.r1.x)⟩,
   ⟨m.r1.x * m.r2.y - m.r1.y * m.r2.x,
    -(m.r0.x * m.r2.y - m.r0.y * m.r2.x),
    m.r0.x * m.r1.y - m.r0.y * m.r1.x⟩⟩

/-- Entrywise integer division, used only where exactness has been checked. -/
def Mat3.sdiv (m : Mat3) (d : Int) : Mat3 :=
  ⟨⟨m.r0.x / d, m.r0.y / d, m.r0.z / d⟩,
   ⟨m.r1.x / d, m.r1.y / d, m.r1.z / d⟩,
   ⟨m.r2.x / d, m.r2.y / d, m.r2.z / d⟩⟩

/-- Modelled from the spec (section 3): an Op is the affine map
`x ↦ R x + t / D` with integer rotation matrix `R` and integer translation
numerator vector `t` over the fixed denominator `TDEN`. -/
@[ext]
structure Op where
  rot : Mat3
  tran : Vec3
deriving DecidableEq, Repr

/-- The identity operation `x,y,z`. -/
def Op.identity : Op := ⟨Mat3.id, Vec3.zero⟩

/-- Modelled from the spec (section 4.2): group multiplication
`(a.combine b)(v) = a(b(v))`: new rotation `Ra * Rb`, new translation
`Ra * tb + ta`, each component reduced into the canonical range `[0, D)`. -/
def Op.combine (a b : Op) : Op :=
  ⟨a.rot.mul b.rot, ((a.rot.mulVec b.tran).add a.tran).emod TDEN⟩

def Op.detRot (op : Op) : Int := op.rot.det

/-- Canonical form of an operation: translation reduced into `[0, D)`;
two Ops are equal in the spec's sense iff their canonical forms coincide. -/
def Op.canon (op : Op) : Op := ⟨op.rot, op.tran.emod TDEN⟩

/-- Modelled from the spec (section 4.2): inverse requires `det R = ±1`,
the rotation inverse is adjugate/determinant, the translation inverse is
`-R⁻¹ * t` reduced modulo `D`; fails ("operation not invertible", here
`none`) when `|det R| ≠ 1`. -/
def Op.inverse (op : Op) : Option Op :=
  if op.rot.det = 1 ∨ op.rot.det = -1 then
    some ⟨Mat3.smul op.rot.det op.rot.adj,
          (Vec3.smul (-1) ((Mat3.smul op.rot.det op.rot.adj).mulVec op.tran)).emod TDEN⟩
  else none

/-- Reads a decimal number from the head of the character list. -/
def readNatAux : List Char → Nat → Nat × List Char
  | [], n => (n, [])
  | c :: rest, n =>
    if c.isDigit then readNatAux rest (n * 10 + (c.toNat - 48))
    else (n, c :: rest)

/-- Modelled from the spec (section 4.1): the worker behind
`parse_triplet_part`.  Walks one comma-separated axis expression accumulating
integer coefficients for x, y, z and the translation numerator scaled to
`TDEN`.  Accepts any term order, mixed case, signed fraction or integer
translation terms (preserved as given, not wrapped into `[0,1)`), and fails on
unknown symbols or fractions not exactly representable over `TDEN`.
The Nat argument is recursion fuel (at least the input length). -/
def parsePartAux : Nat → List Char → Int → Bool → Int × Int × Int × Int →
    Option (Int × Int × Int × Int)
  | 0, _, _, _, _ => none
  | _ + 1, [], _, pending, acc => if pending then none else some acc
  | fuel + 1, ch :: rest, sign, pending, (a, b, c, w) =>
    if ch = ' ' then parsePartAux fuel rest sign pending (a, b, c, w)
    else if ch = '+' then
      if pending then none else parsePartAux fuel rest 1 true (a, b, c, w)
    else if ch = '-' then
      if pending then none else parsePartAux fuel rest (-1) true (a, b, c, w)
    else if ch = 'x' ∨ ch = 'X' then parsePartAux fuel rest 1 false (a + sign, b, c, w)
    else if ch = 'y' ∨ ch = 'Y' then parsePartAux fuel rest 1 false (a, b + sign, c, w)
    else if ch = 'z' ∨ ch = 'Z' then parsePartAux fuel rest 1 false (a, b, c + sign, w)
    else if ch.isDigit then
      match readNatAux (ch :: rest) 0 with
      | (num, rest2) =>
        match rest2 with
        | '/' :: rest3 =>
          match readNatAux rest3 0 with
          | (den, rest4) =>
            if den = 0 then none
            else if num * 24 % den = 0 then
              parsePartAux fuel rest4 1 false (a, b, c, w + sign * ((num * 24 / den : Nat) : Int))
            else none
        | _ => parsePartAux fuel rest2 1 false (a, b, c, w + sign * (num : Int) * TDEN)
    else none

def parsePartList (p : List Char) : Option (Int × Int × Int × Int) :=
  parsePartAux (p.length + 1) p 1 false (0, 0, 0, 0)

/-- Modelled from the spec (section 4.1): `parse_triplet_part(text)` returns
the coefficient/translation vector `[a, b, c, translation]`. -/
def parse_triplet_part (s : String) : Option (Int × Int × Int × Int) :=
  parsePartList s.data

/-- Modelled from the spec (section 4.1): canonical serialization of one axis
expression; terms in fixed order x, y, z, then the translation fraction
reduced to lowest terms over `TDEN`; coefficient magnitude 1 is rendered
without a leading digit. -/
def make_triplet_part (a b c w : Int) : String :=
  let term : String → Int → String → String := fun s k letter =>
    if k = 0 then s
    else s ++ (if k < 0 then "-" else if s = "" then "" else "+")
           ++ (if k = 1 ∨ k = -1 then "" else toString k.natAbs) ++ letter
  let s := term (term (term "" a "x") b "y") c "z"
  if w = 0 then s
  else
    let g : Nat := Int.gcd w TDEN
    let num : Nat := w.natAbs / g
    let den : Nat := TDEN.toNat / g
    s ++ (if w < 0 then "-" else if s = "" then "" else "+")
      ++ toString num ++ (if den = 1 then "" else "/" ++ toString den)

/-- Uncurried form of `make_triplet_part`, taking the vector
`parse_triplet_part` produces. -/
def make_triplet_part4 (v : Int × Int × Int × Int) : String :=
  make_triplet_part v.1 v.2.1 v.2.2.1 v.2.2.2

/-- Splits a character list on a separator character. -/
def splitOnChar (sep : Char) : List Char → List (List Char)
  | [] => [[]]
  | ch :: rest =>
    match splitOnChar sep rest with
    | [] => [[ch]]
    | h :: t => if ch = sep then [] :: h :: t else (ch :: h) :: t

/-- Modelled from the spec (section 4.1): split three comma-separated parts
and build the Op whose row i holds the coefficients of part i. -/
def parse_triplet (s : String) : Option Op :=
  match splitOnChar ',' s.data with
  | [p1, p2, p3] =>
    match parsePartList p1, parsePartList p2, parsePartList p3 with
    | some (a1, b1, c1, w1), some (a2, b2, c2, w2), some (a3, b3, c3, w3) =>
      some ⟨⟨⟨a1, b1, c1⟩, ⟨a2, b2, c2⟩, ⟨a3, b3, c3⟩⟩, ⟨w1, w2, w3⟩⟩
    | _, _, _ => none
  | _ => none

/-- Modelled from the spec (section 4.1): `Op.triplet()` joins the three
serialized parts with commas. -/
def Op.triplet (op : Op) : String :=
  make_triplet_part op.rot.r0.x op.rot.r0.y op.rot.r0.z op.tran.x ++ "," ++
  make_triplet_part op.rot.r1.x op.rot.r1.y op.rot.r1.z op.tran.y ++ "," ++
  make_triplet_part op.rot.r2.x op.rot.r2.y op.rot.r2.z op.tran.z

/-- Keeps the first occurrence of each element, preserving order. -/
def dedupKeep {α : Type} [DecidableEq α] (l : List α) : List α :=
  l.foldl (fun acc o => if o ∈ acc then acc else acc ++ [o]) []

/-- Modelled from the spec (section 4.3): centering-translation list selected
by the leading lattice letter (P: none; I: body; F: three faces; A/B/C: one
face; R: rhombohedral obverse centerings), numerators over `TDEN = 24`. -/
def latticeCen : Char → Option (List Vec3)
  | 'p' => some [Vec3.zero]
  | 'a' => some [Vec3.zero, ⟨0, 12, 12⟩]
  | 'b' => some [Vec3.zero, ⟨12, 0, 12⟩]
  | 'c' => some [Vec3.zero, ⟨12, 12, 0⟩]
  | 'i' => some [Vec3.zero, ⟨12, 12, 12⟩]
  | 'f' => some [Vec3.zero, ⟨0, 12, 12⟩, ⟨12, 0, 12⟩, ⟨12, 12, 0⟩]
  | 'r' => some [Vec3.zero, ⟨8, 16, 16⟩, ⟨16, 8, 8⟩]
  | _ => none

/-- Axis selector of a Hall rotation token: a principal axis x/y/z, the body
diagonal (the `*` modifier), or the a-b diagonal twofold default. -/
inductive HAxis where
  | ax
  | ay
  | az
  | adiag
  | aprime
deriving DecidableEq, Repr

/-- Modelled from the spec (section 4.3) and the standard Hall-symbol
reference the spec points to: rotation matrix for the stated order about the
stated axis (proper rotations; an improper token negates the result). -/
def rotMatrix : Nat → HAxis → Option Mat3
  | 1, _ => some Mat3.id
  | 2, .ax => some ⟨⟨1, 0, 0⟩, ⟨0, -1, 0⟩, ⟨0, 0, -1⟩⟩
  | 2, .ay => some ⟨⟨-1, 0, 0⟩, ⟨0, 1, 0⟩, ⟨0, 0, -1⟩⟩
  | 2, .az => some ⟨⟨-1, 0, 0⟩, ⟨0, -1, 0⟩, ⟨0, 0, 1⟩⟩
  | 2, .aprime => some ⟨⟨0, -1, 0⟩, ⟨-1, 0, 0⟩, ⟨0, 0, -1⟩⟩
  | 3, .ax => some ⟨⟨1, 0, 0⟩, ⟨0, 0, -1⟩, ⟨0, 1, -1⟩⟩
  | 3, .ay => some ⟨⟨-1, 0, 1⟩, ⟨0, 1, 0⟩, ⟨-1, 0, 0⟩⟩
  | 3, .az => some ⟨⟨0, -1, 0⟩, ⟨1, -1, 0⟩, ⟨0, 0, 1⟩⟩
  | 3, .adiag => some ⟨⟨0, 0, 1⟩, ⟨1, 0, 0⟩, ⟨0, 1, 0⟩⟩
  | 4, .ax => some ⟨⟨1, 0, 0⟩, ⟨0, 0, -1⟩, ⟨0, 1, 0⟩⟩
  | 4, .ay => some ⟨⟨0, 0, 1⟩, ⟨0, 1, 0⟩, ⟨-1, 0, 0⟩⟩
  | 4, .az => some ⟨⟨0, -1, 0⟩, ⟨1, 0, 0⟩, ⟨0, 0, 1⟩⟩
  | 6, .ax => some ⟨⟨1, 0, 0⟩, ⟨0, 1, -1⟩, ⟨0, 1, 0⟩⟩
  | 6, .ay => some ⟨⟨0, 0, 1⟩, ⟨0, 1, 0⟩, ⟨-1, 0, 1⟩⟩
  | 6, .az => some ⟨⟨1, -1, 0⟩, ⟨1, 0, 0⟩, ⟨0, 0, 1⟩⟩
  | _, _ => none

/-- Modelled from the spec (section 4.3): translation modifier letters of a
Hall rotation token, as numerators over `TDEN = 24`. -/
def trLetter : Char → Option Vec3
  | 'a' => some ⟨12, 0, 0⟩
  | 'b' => some ⟨0, 12, 0⟩
  | 'c' => some ⟨0, 0, 12⟩
  | 'n' => some ⟨12, 12, 12⟩
  | 'u' => some ⟨6, 0, 0⟩
  | 'v' => some ⟨0, 6, 0⟩
  | 'w' => some ⟨0, 0, 6⟩
  | 'd' => some ⟨6, 6, 6⟩
  | _ => none

/-- Unit direction along a principal axis (screw translations apply only to
principal axes in the supported subset). -/
def axisVec : HAxis → Vec3
  | .ax => ⟨1, 0, 0⟩
  | .ay => ⟨0, 1, 0⟩
  | .az => ⟨0, 0, 1⟩
  | _ => ⟨0, 0, 0⟩

/-- Scans the characters of a Hall rotation token after the order digit:
an explicit axis letter or `*`, an optional screw digit, and translation
modifier letters.  Returns (axis?, screw, translation sum). -/
def scanTokenChars : List Char → Option HAxis → Nat → Vec3 →
    Option (Option HAxis × Nat × Vec3)
  | [], ax, k, v => some (ax, k, v)
  | ch :: rest, ax, k, v =>
    if ch = 'x' then scanTokenChars rest (some .ax) k v
    else if ch = 'y' then scanTokenChars rest (some .ay) k v
    else if ch = 'z' then scanTokenChars rest (some .az) k v
    else if ch = '*' then scanTokenChars rest (some .adiag) k v
    else if ch.isDigit then scanTokenChars rest ax (ch.toNat - 48) v
    else
      match trLetter ch with
      | some t => scanTokenChars rest ax k (v.add t)
      | none => none

/-- Modelled from the spec (section 4.3): translates one Hall rotation token
into a generator Op: optional leading `-` (improper), the order digit, an
optional axis letter or `*` (with the standard default-axis rules: first
rotation about z; a twofold after 2/4 about x, after 3/6 about a-b; a
threefold in third place about the body diagonal), an optional screw digit
adding `k/N` along the axis, and translation modifier letters.
Returns the rotation order together with the generator. -/
def tokenToOp (tok : List Char) (prev : Option Nat) (first : Bool) :
    Option (Nat × Op) :=
  let p : Bool × List Char :=
    match tok with
    | '-' :: r => (true, r)
    | r => (false, r)
  match p.2 with
  | [] => none
  | ch :: rest2 =>
    if ch.isDigit then
      let order := ch.toNat - 48
      if order = 1 ∨ order = 2 ∨ order = 3 ∨ order = 4 ∨ order = 6 then
        match scanTokenChars rest2 none 0 Vec3.zero with
        | some (axOpt, screw, tr) =>
          let ax : Option HAxis :=
            match axOpt with
            | some a => some a
            | none =>
              if first then some .az
              else if order = 1 then some .az
              else if order = 2 then
                match prev with
                | some 2 => some .ax
                | some 4 => some .ax
                | some 3 => some .aprime
                | some 6 => some .aprime
                | _ => none
              else if order = 3 then some .adiag
              else none
          match ax with
          | some a =>
            match rotMatrix order a with
            | some m =>
              let m2 := if p.1 then Mat3.smul (-1) m else m
              let scr : Vec3 :=
                if screw = 0 then Vec3.zero
                else Vec3.smul ((screw * (24 / order) : Nat) : Int) (axisVec a)
              some (order, Op.canon ⟨m2, tr.add scr⟩)
            | none => none
          | none => none
        | none => none
      else none
    else none

/-- Translates the sequence of Hall rotation tokens, threading the previous
rotation order for the default-axis rules. -/
def hallRotOps : List (List Char) → Option Nat → Bool → Option (List Op)
  | [], _, _ => some []
  | tok :: rest, prev, first =>
    match tokenToOp tok prev first with
    | some (ord, op) =>
      match hallRotOps rest (some ord) false with
      | some l => some (op :: l)
      | none => none
    | none => none

/-- The inversion operation `-x,-y,-z` added by a leading `-` before the
lattice letter of a Hall symbol. -/
def inversionOp : Op := ⟨Mat3.smul (-1) Mat3.id, Vec3.zero⟩

/-- Splits off the content of the first parenthesized group: returns the
characters outside it and, when present, the characters inside it. -/
def splitParenAux : List Char → List Char → List Char × Option (List Char)
  | [], acc => (acc.reverse, none)
  | ch :: rest, acc =>
    if ch = '(' then (acc.reverse, some (rest.takeWhile (fun c => decide (c ≠ ')'))))
    else splitParenAux rest (ch :: acc)

def splitSpaces (cs : List Char) : List (List Char) :=
  (splitOnChar ' ' cs).filter (fun t => decide (t ≠ []))

/-- Modelled from the spec (section 4.3): the trailing explicit basis
statement `(...)` is a triplet-style transformation `V`; each operation is
reinterpreted in the new basis as `V ∘ op ∘ V⁻¹`, computed exactly over the
integers: the new rotation is `(A·R·adj A)/det A` (fails when an entry is not
divisible, as for operations incompatible with the basis change) and the new
translation is `A·t + u - R'·u` for `V = (A, u)`. -/
def changeBasis (cob op : Op) : Option Op :=
  let d := cob.rot.det
  if d = 0 then none
  else
    let m := cob.rot.mul (op.rot.mul cob.rot.adj)
    if m.r0.x % d = 0 ∧ m.r0.y % d = 0 ∧ m.r0.z % d = 0 ∧
       m.r1.x % d = 0 ∧ m.r1.y % d = 0 ∧ m.r1.z % d = 0 ∧
       m.r2.x % d = 0 ∧ m.r2.y % d = 0 ∧ m.r2.z % d = 0 then
      let r := m.sdiv d
      some (Op.canon ⟨r, (cob.rot.mulVec op.tran).add (cob.tran.sub (r.mulVec cob.tran))⟩)
    else none

/-- Modelled from the spec (section 3): a GeneratorSet or FullGroupOps --
a list of Ops plus a list of pure-translation centering vectors. -/
structure GroupOps where
  sym_ops : List Op
  cen_ops : List Vec3
deriving DecidableEq, Repr

/-- Modelled from the spec (section 4.3): parses the supported Hall-notation
subset into a GeneratorSet: leading lattice letter (optionally preceded by
`-` for a centrosymmetric group), space-separated rotation tokens, and an
optional explicit-basis statement in parentheses.  The always-present
identity `x,y,z` is the first generator; `cen_ops` includes the zero
vector. -/
def generators_from_hall (s : String) : Option GroupOps :=
  let low := s.data.map Char.toLower
  let sp := splitParenAux low []
  match splitSpaces sp.1 with
  | [] => none
  | latTok :: rotToks =>
    let lp : Bool × List Char :=
      match latTok with
      | '-' :: r => (true, r)
      | r => (false, r)
    match lp.2 with
    | [lc] =>
      match latticeCen lc with
      | some cen =>
        match hallRotOps rotToks none true with
        | some gens =>
          let gens2 := if lp.1 then gens ++ [inversionOp] else gens
          match sp.2 with
          | none => some ⟨Op.identity :: gens2, dedupKeep cen⟩
          | some cobChars =>
            match parse_triplet (String.mk cobChars) with
            | some v =>
              match gens2.mapM (changeBasis v) with
              | some gens3 =>
                some ⟨Op.identity :: gens3,
                      dedupKeep (cen.map (fun cv => (v.rot.mulVec cv).emod TDEN))⟩
              | none => none
            | none => none
        | none => none
      | none => none
    | _ => none

/-- One pass of the spec's closure loop (section 4.4): combine every known
pair and admit any result whose canonical form is new. -/
def closureStep (l : List Op) : List Op :=
  ((l.map (fun a => l.map (fun b => a.combine b))).flatten).foldl
    (fun acc o => if o ∈ acc then acc else acc ++ [o]) l

/-- Fixed-point iteration of `closureStep` with explicit fuel; the group
order is at most 192, so any fuel beyond that is never consumed. -/
def closeOps : Nat → List Op → List Op
  | 0, l => l
  | n + 1, l =>
    let l2 := closureStep l
    if l2.length = l.length then l else closeOps n l2

def vecLexLe (u v : Vec3) : Bool :=
  if u.x < v.x then true else if v.x < u.x then false
  else if u.y < v.y then true else if v.y < u.y then false
  else u.z ≤ v.z

def minLex (l : List Vec3) : Option Vec3 :=
  l.foldl
    (fun acc v =>
      match acc with
      | none => some v
      | some u => if vecLexLe u v then some u else some v)
    none

/-- Modelled from the spec (section 4.4): the final closure result partitions
into `sym_ops` (one coset representative per point-group element, the one
with the lexicographically minimal translation) and `cen_ops` (pure
translations fixing the identity rotation). -/
def partitionOps (l : List Op) : GroupOps :=
  let rots := dedupKeep (l.map Op.rot)
  let reps := rots.filterMap (fun r =>
    match minLex ((l.filter (fun o => decide (o.rot = r))).map Op.tran) with
    | some t => some (Op.mk r t)
    | none => none)
  let cens := (l.filter (fun o => decide (o.rot = Mat3.id))).map Op.tran
  ⟨reps, dedupKeep cens⟩

/-- Modelled from the spec (sections 4.3-4.4): `symops_from_hall` expands the
generator set into the full finite operation group by closure under
`combine`. -/
def symops_from_hall (s : String) : Option GroupOps :=
  match generators_from_hall s with
  | none => none
  | some g =>
    let start := (g.sym_ops.map Op.canon) ++ g.cen_ops.map (fun c => Op.canon ⟨Mat3.id, c⟩)
    some (partitionOps (closeOps 200 (dedupKeep start)))

/-- Modelled from the spec (section 3): a catalogue record with sequential
number (1-230), legacy ccp4 numeric code (`code mod 1000 == number`),
Hermann-Mauguin symbol and Hall symbol. -/
structure SpaceGroupEntry where
  number : Int
  ccp4 : Int
  hm : String
  hall : String
deriving DecidableEq, Repr

/-- Modelled from the spec (sections 3 and 4.5): the process-wide space-group
table.  The full table of about 530 settings is not among the source files;
this model holds the reference settings the spec and its examples exercise,
with their standard Hall symbols, in table order (the default setting of a
number comes first). -/
def spacegroupTable : List SpaceGroupEntry :=
  [⟨1, 1, "P 1", "P 1"⟩,
   ⟨4, 4, "P 1 21 1", "P 2yb"⟩,
   ⟨5, 5, "C 1 2 1", "C 2y"⟩,
   ⟨5, 4005, "I 1 2 1", "I 2y"⟩,
   ⟨18, 18, "P 21 21 2", "P 2 2ab"⟩,
   ⟨169, 169, "P 61", "P 61"⟩]

/-- Modelled from the spec (section 4.5): `short_name()` compresses the
spaced Hermann-Mauguin symbol: the two placeholder `1` parts of a monoclinic
symbol are dropped, then spaces are removed. -/
def shortNameChars (cs : List Char) : List Char :=
  let squeezed :=
    if cs.length > 6 ∧ cs.get? 2 = some '1' ∧
       cs.get? (cs.length - 2) = some ' ' ∧ cs.get? (cs.length - 1) = some '1' then
      cs.take 1 ++ ((cs.drop 4).take (cs.length - 6))
    else cs
  squeezed.filter (fun c => decide (c ≠ ' '))

def SpaceGroupEntry.short_name (e : SpaceGroupEntry) : String :=
  String.mk (shortNameChars e.hm.data)

/-- The three spec-mandated outcomes of a by-name lookup (section 4.5):
a match, an empty result for an absent-but-valid-looking name, or a format
error for structurally invalid input. -/
inductive SgLookupResult where
  | found : SpaceGroupEntry → SgLookupResult
  | absent : SgLookupResult
  | formatError : SgLookupResult
deriving DecidableEq, Repr

def SgLookupResult.hmOf : SgLookupResult → Option String
  | .found e => some e.hm
  | _ => none

/-- Name normalization for lookup: remove blanks, lower the case. -/
def normName (s : String) : List Char :=
  (s.data.filter (fun c => decide (c ≠ ' '))).map Char.toLower

/-- Splits a normalized name at the `:` setting-qualifier separator. -/
def splitColon : List Char → List Char × Option (List Char)
  | [] => ([], none)
  | ch :: rest =>
    if ch = ':' then ([], some rest)
    else
      let p := splitColon rest
      (ch :: p.1, p.2)

def latticeLetterB (c : Char) : Bool :=
  c = 'p' || c = 'a' || c = 'b' || c = 'c' || c = 'i' || c = 'f' || c = 'r' || c = 'h'

def lookupByKey (key : List Char) : Option SpaceGroupEntry :=
  spacegroupTable.find? (fun e =>
    decide (normName e.hm = key) || decide (normName e.short_name = key))

/-- Modelled from the spec (section 4.5): `find_spacegroup_by_name` trims and
normalizes the input (case-tolerant, spaced Hermann-Mauguin or compressed
short form, optional `:H`/`:R`/`:1`/`:2` setting qualifier) and matches the
stored symbol fields.  It signals a format error for structurally invalid
input and returns an empty result when nothing fits a syntactically valid
pattern.  Per the spec's examples (section 8: `"i3"` fails with a format
error, `"abc"` returns empty), a structurally invalid name is modelled as a
malformed qualifier or an unmatched lattice-letter-plus-rotation-digits
symbol, while other unmatched names are merely absent. -/
def find_spacegroup_by_name (s : String) : SgLookupResult :=
  let n := normName s
  let p := splitColon n
  let qualOk : Bool :=
    match p.2 with
    | none => true
    | some q =>
      decide (q = ['h']) || decide (q = ['r']) || decide (q = ['1']) || decide (q = ['2'])
  if qualOk = false then .formatError
  else
    match lookupByKey p.1 with
    | some e => .found e
    | none =>
      match p.1 with
      | c :: rest =>
        if latticeLetterB c && !rest.isEmpty && rest.all Char.isDigit then .formatError
        else .absent
      | [] => .absent

/-- Modelled from the spec (section 4.5): exact match on the sequential
number, returning the table's designated default setting (the first entry
with that number). -/
def find_spacegroup_by_number (n : Int) : Option SpaceGroupEntry :=
  spacegroupTable.find? (fun e => decide (e.number = n))

/-- Modelled from the spec (sections 3 and 4.5) and the test suite's
`gemmi.SpaceGroup(4005)`: constructing a SpaceGroup from an integer treats
values up to 230 as sequential numbers and larger values as legacy ccp4
numeric codes. -/
def spacegroup_by_int (n : Int) : Option SpaceGroupEntry :=
  if n ≤ 230 then find_spacegroup_by_number n
  else spacegroupTable.find? (fun e => decide (e.ccp4 = n))

/-- Modelled from the spec (section 4.5): `operations()` on a table entry
returns the FullGroupOps derived from its Hall symbol. -/
def SpaceGroupEntry.operations (e : SpaceGroupEntry) : Option GroupOps :=
  symops_from_hall e.hall

/-- The full operation group of the space group a name resolves to. -/
def operations_by_name (s : String) : Option GroupOps :=
  match find_spacegroup_by_name s with
  | .found e => e.operations
  | _ => none

/-- Every coset representative combined with every centering vector. -/
def GroupOps.allOps (g : GroupOps) : List Op :=
  ((g.sym_ops.map (fun s => g.cen_ops.map (fun c => Op.canon ⟨s.rot, s.tran.add c⟩))).flatten)

def gcdFold (l : List Int) : Nat :=
  l.foldl (fun acc t => Nat.gcd acc (t % TDEN).toNat) 24

/-- Modelled from the spec (section 4.6): per-axis minimal sampling divisors:
for each axis the smallest divisor of `D` that clears every operation's
translation fraction on that axis (`D` divided by the gcd of `D` with all
the axis translation numerators); the identity-only group yields
`[1, 1, 1]`. -/
def GroupOps.find_grid_factors (g : GroupOps) : List Nat :=
  let ops := g.allOps
  [24 / gcdFold (ops.map (fun o => o.tran.x)),
   24 / gcdFold (ops.map (fun o => o.tran.y)),
   24 / gcdFold (ops.map (fun o => o.tran.z))]

/-- Boolean set equality of two lists (same members, order and multiplicity
ignored). -/
def listSetEq {α : Type} [DecidableEq α] (l1 l2 : List α) : Bool :=
  l1.all (fun o => decide (o ∈ l2)) && l2.all (fun o => decide (o ∈ l1))

/-- Both Hall symbols expand (via `symops_from_hall`) to groups whose
`sym_ops` and `cen_ops` are set-equal. -/
def hallsSetEquiv (h1 h2 : String) : Bool :=
  match symops_from_hall h1, symops_from_hall h2 with
  | some g1, some g2 => listSetEq g1.sym_ops g2.sym_ops && listSetEq g1.cen_ops g2.cen_ops
  | _, _ => false

/-- The concrete rhombohedral-to-hexagonal basis-change operation
`-y+z,x+z,-x+y+z` of the spec (sections 4.2 and 8), whose rotation
determinant is 3. -/
def rhombToHexOp : Op := ⟨⟨⟨0, -1, 1⟩, ⟨1, 0, 1⟩, ⟨-1, 1, 1⟩⟩, ⟨0, 0, 0⟩⟩

/-- The operation parsed from `-x+1/2,y,-z` (test_combine's `b`). -/
def opB : Op := ⟨⟨⟨-1, 0, 0⟩, ⟨0, 1, 0⟩, ⟨0, 0, -1⟩⟩, ⟨12, 0, 0⟩⟩

/-- The operation parsed from `-y,-z,-x` (test_combine's `c`). -/
def opC : Op := ⟨⟨⟨0, -1, 0⟩, ⟨0, 0, -1⟩, ⟨-1, 0, 0⟩⟩, ⟨0, 0, 0⟩⟩

/-- The twenty entries of the canonical single-term table
(CANONICAL_SINGLES in the test suite, section 8 of the spec). -/
def canonicalSingles : List String :=
  ["x", "z", "-y", "-z", "x-y", "-x+y",
   "x+1/2", "y+1/4", "z+3/4", "z+1/3", "z+1/6", "z+2/3", "z+5/6",
   "-x+1/4", "-y+1/2", "-y+3/4", "-z+1/3", "-z+1/6", "-z+2/3", "-z+5/6"]

theorem Mat3.mul_adj (m : Mat3) : m.mul m.adj = Mat3.smul m.det Mat3.id := by
  ext <;> simp [Mat3.mul, Mat3.adj, Mat3.smul, Mat3.id, Mat3.det, Vec3.smul] <;> ring

theorem Mat3.adj_adj (m : Mat3) : m.adj.adj = Mat3.smul m.det m := by
  ext <;> simp [Mat3.adj, Mat3.smul, Mat3.det, Vec3.smul] <;> ring

theorem Mat3.det_adj (m : Mat3) : m.adj.det = m.det ^ 2 := by
  simp [Mat3.adj, Mat3.det]; ring

theorem Mat3.det_smul (k : Int) (m : Mat3) : (Mat3.smul k m).det = k ^ 3 * m.det := by
  simp [Mat3.smul, Mat3.det, Vec3.smul]; ring

theorem Mat3.adj_smul (k : Int) (m : Mat3) :
    (Mat3.smul k m).adj = Mat3.smul (k ^ 2) m.adj := by
  ext <;> simp [Mat3.adj, Mat3.smul, Vec3.smul] <;> ring

theorem Mat3.mul_smul_right (k : Int) (m n : Mat3) :
    m.mul (Mat3.smul k n) = Mat3.smul k (m.mul n) := by
  ext <;> simp [Mat3.mul, Mat3.smul, Vec3.smul] <;> ring

theorem Mat3.smul_smul (j k : Int) (m : Mat3) :
    Mat3.smul j (Mat3.smul k m) = Mat3.smul (j * k) m := by
  ext <;> simp [Mat3.smul, Vec3.smul] <;> ring

theorem Mat3.one_smul (m : Mat3) : Mat3.smul 1 m = m := by
  ext <;> simp [Mat3.smul, Vec3.smul]

theorem Mat3.mul_assoc (a b c : Mat3) : (a.mul b).mul c = a.mul (b.mul c) := by
  ext <;> simp [Mat3.mul] <;> ring

theorem Mat3.mulVec_smul (m : Mat3) (k : Int) (v : Vec3) :
    m.mulVec (Vec3.smul k v) = Vec3.smul k (m.mulVec v) := by
  ext <;> simp [Mat3.mulVec, Vec3.smul] <;> ring

theorem Mat3.mul_mulVec (m n : Mat3) (v : Vec3) :
    (m.mul n).mulVec v = m.mulVec (n.mulVec v) := by
  ext <;> simp [Mat3.mul, Mat3.mulVec] <;> ring

theorem Mat3.id_mulVec (v : Vec3) : Mat3.id.mulVec v = v := by
  ext <;> simp [Mat3.id, Mat3.mulVec]

theorem dot3_modeq (a b c x y z d : Int) :
    a * (x % d) + b * (y % d) + c * (z % d) ≡ a * x + b * y + c * z [ZMOD d] := by
  have hx : x % d ≡ x [ZMOD d] := Int.emod_emod_of_dvd x dvd_rfl
  have hy : y % d ≡ y [ZMOD d] := Int.emod_emod_of_dvd y dvd_rfl
  have hz : z % d ≡ z [ZMOD d] := Int.emod_emod_of_dvd z dvd_rfl
  exact ((hx.mul_left a).add (hy.mul_left b)).add (hz.mul_left c)

theorem dot3t_emod (a b c x y z t d : Int) :
    (a * (x % d) + b * (y % d) + c * (z % d) + t) % d
      = (a * x + b * y + c * z + t) % d :=
  (dot3_modeq a b c x y z d).add_right t

theorem add_emod_right_abs (p q d : Int) : (p + q % d) % d = (p + q) % d :=
  Int.ModEq.add_left p (Int.emod_emod_of_dvd q dvd_rfl)

/-- Reducing the argument vector modulo `TDEN` before a rotation and shift
does not change the result modulo `TDEN`. -/
theorem vec_emod_absorb (m : Mat3) (t v : Vec3) :
    ((m.mulVec (v.emod TDEN)).add t).emod TDEN = ((m.mulVec v).add t).emod TDEN := by
  ext <;> simp only [Mat3.mulVec, Vec3.add, Vec3.emod] <;> exact dot3t_emod _ _ _ _ _ _ _ _

/-- Reducing the added vector modulo `TDEN` does not change the result
modulo `TDEN`. -/
theorem vec_add_emod_absorb (u v : Vec3) :
    (u.add (v.emod TDEN)).emod TDEN = (u.add v).emod TDEN := by
  ext <;> simp only [Vec3.add, Vec3.emod] <;> exact add_emod_right_abs _ _ _

theorem vec_smulneg_mulvec_emod (m : Mat3) (v : Vec3) :
    (Vec3.smul (-1) (m.mulVec (v.emod TDEN))).emod TDEN
      = (Vec3.smul (-1) (m.mulVec v)).emod TDEN := by
  ext <;> simp only [Mat3.mulVec, Vec3.smul, Vec3.emod] <;>
    exact ((dot3_modeq _ _ _ _ _ _ _).mul_left (-1))

theorem vec_negneg (t : Vec3) : Vec3.smul (-1) (Vec3.smul (-1) t) = t := by
  ext <;> simp [Vec3.smul]

theorem vec_neg_add_self (t : Vec3) : (Vec3.smul (-1) t).add t = Vec3.zero := by
  ext <;> simp [Vec3.smul, Vec3.add, Vec3.zero]

theorem vec_zero_emod : Vec3.zero.emod TDEN = Vec3.zero := rfl

theorem combine_assoc (a b c : Op) :
    (a.combine b).combine c = a.combine (b.combine c) := by
  unfold Op.combine
  dsimp only
  rw [Op.mk.injEq]
  refine ⟨Mat3.mul_assoc a.rot b.rot c.rot, ?_⟩
  rw [vec_add_emod_absorb, vec_emod_absorb]
  refine congrArg (fun v => Vec3.emod v TDEN) ?_
  ext <;> simp [Mat3.mul, Mat3.mulVec, Vec3.add] <;> ring

/-- C2: for all valid Ops a, b, c, composition (combine) is associative; it is
not commutative in general: for b parsed from `-x+1/2,y,-z` and c parsed from
`-y,-z,-x`, combine(b,c) is `y+1/2,-z,x` while combine(c,b) is `-y,z,x+1/2`,
and the two differ. -/
theorem claimC2 :
    (∀ a b c : Op, (a.combine b).combine c = a.combine (b.combine c)) ∧
    parse_triplet "-x+1/2,y,-z" = some opB ∧
    parse_triplet "-y,-z,-x" = some opC ∧
    (opB.combine opC).triplet = "y+1/2,-z,x" ∧
    (opC.combine opB).triplet = "-y,z,x+1/2" ∧
    opB.combine opC ≠ opC.combine opB :=
  ⟨combine_assoc, by decide, by decide, by decide, by decide, by decide⟩

/-- C3: `inverse` fails (returns none) exactly when the rotation part is not
unimodular; in particular the basis-change operation parsed from
`-y+z,x+z,-x+y+z`, whose rotation determinant is 3, is rejected. -/
theorem claimC3 :
    (∀ op : Op, op.inverse = none ↔ ¬ (op.rot.det = 1 ∨ op.rot.det = -1)) ∧
    parse_triplet "-y+z,x+z,-x+y+z" = some rhombToHexOp ∧
    rhombToHexOp.detRot = 3 ∧ rhombToHexOp.inverse = none := by
  refine ⟨fun op => ?_, by decide, by decide, by decide⟩
  unfold Op.inverse
  by_cases h : op.rot.det = 1 ∨ op.rot.det = -1
  · rw [if_pos h]; simp [h]
  · rw [if_neg h]; simp [h]

/-- C4: the Hall symbols `P 3*` and `R 3 (-y+z,x+z,-x+y+z)` describe the same
group in different settings: `symops_from_hall` (closure) yields set-equal
`sym_ops` and `cen_ops` for the two. -/
theorem claimC4 : hallsSetEquiv "P 3*" "R 3 (-y+z,x+z,-x+y+z)" = true := by decide

/-- C6: for every entry of the canonical single-term table,
`make_triplet_part` applied to the vector `parse_triplet_part` returns
reproduces the entry character for character. -/
theorem claimC6 : ∀ s ∈ canonicalSingles,
    (parse_triplet_part s).map make_triplet_part4 = some s := by decide

theorem claimC6_witness :
    "z+5/6" ∈ canonicalSingles ∧
    (parse_triplet_part "z+5/6").map make_triplet_part4 = some "z+5/6" :=
  ⟨by decide, claimC6 "z+5/6" (by decide)⟩

/-- C7: `parse_triplet_part` accepts non-canonical equivalent spellings
(reordered terms, case variants, leading translation terms) giving the same
vector as the canonical spelling, and preserves non-crystallographic
translations of one unit cell or more as given: `x+3` parses to
`[1,0,0,3*TDEN]` and `-2+Y` to `[0,1,0,-2*TDEN]`. -/
theorem claimC7 :
    parse_triplet_part "Y-x" = some (-1, 1, 0, 0) ∧
    parse_triplet_part "Y-x" = parse_triplet_part "-x+y" ∧
    parse_triplet_part "-X" = some (-1, 0, 0, 0) ∧
    parse_triplet_part "-X" = parse_triplet_part "-x" ∧
    parse_triplet_part "-1/2+Y" = some (0, 1, 0, -(TDEN / 2)) ∧
    parse_triplet_part "-1/2+Y" = parse_triplet_part "y-1/2" ∧
    parse_triplet_part "x+3" = some (1, 0, 0, 3 * TDEN) ∧
    parse_triplet_part "1+Y" = some (0, 1, 0, TDEN) ∧
    parse_triplet_part "-2+Y" = some (0, 1, 0, -(2 * TDEN)) ∧
    parse_triplet_part "-z-5/6" = some (0, 0, -1, -(5 * TDEN / 6)) :=
  ⟨by decide, by decide, by decide, by decide, by decide,
   by decide, by decide, by decide, by decide, by decide⟩

/-- C8: `find_spacegroup_by_name` distinguishes malformed input from absence:
`i3` signals a format error, `abc` returns an empty result; valid names are
normalized: `P21212` resolves to `P 21 21 2` and `i2` to `I 1 2 1`. -/
theorem claimC8 :
    find_spacegroup_by_name "i3" = SgLookupResult.formatError ∧
    find_spacegroup_by_name "abc" = SgLookupResult.absent ∧
    (find_spacegroup_by_name "P21212").hmOf = some "P 21 21 2" ∧
    (find_spacegroup_by_name "i2").hmOf = some "I 1 2 1" := by decide

/-- C9: `find_grid_factors` on the full operation group of space group P21
returns `[1,2,1]` and on the group of P61 returns `[1,1,6]`. -/
theorem claimC9 :
    (operations_by_name "P21").map GroupOps.find_grid_factors = some [1, 2, 1] ∧
    (operations_by_name "P61").map GroupOps.find_grid_factors = some [1, 1, 6] := by decide

/-- C10: constructing a SpaceGroup from an integer larger than 230 looks the
entry up by its legacy ccp4 numeric code: 4005 yields the `I 1 2 1` setting
of group number 5, while `find_spacegroup_by_number 5` returns the default
setting `C 1 2 1` -- different settings of the same group. -/
theorem claimC10 :
    (spacegroup_by_int 4005).map SpaceGroupEntry.hm = some "I 1 2 1" ∧
    (spacegroup_by_int 4005).map SpaceGroupEntry.number = some 5 ∧
    (find_spacegroup_by_number 5).map SpaceGroupEntry.hm = some "C 1 2 1" ∧
    (find_spacegroup_by_number 5).map SpaceGroupEntry.number = some 5 := by decide

theorem gen_sym_head (s : String) (g : GroupOps)
    (h : generators_from_hall s = some g) : g.sym_ops.head? = some Op.identity := by
  unfold generators_from_hall at h
  dsimp only at h
  repeat' split at h
  all_goals first
    | exact Option.noConfusion h
    | (injection h with h2; subst h2; rfl)

/-- C5: `generators_from_hall` on `p -2xc` returns sym_ops
`["x,y,z", "-x,y,z+1/2"]` and on `p 3*` returns `["x,y,z", "z,x,y"]`; the
identity `x,y,z` is always included as the first generator. -/
theorem claimC5 :
    (generators_from_hall "p -2xc").map (fun g => g.sym_ops.map Op.triplet)
        = some ["x,y,z", "-x,y,z+1/2"] ∧
    (generators_from_hall "p 3*").map (fun g => g.sym_ops.map Op.triplet)
        = some ["x,y,z", "z,x,y"] ∧
    (∀ s g, generators_from_hall s = some g → g.sym_ops.head? = some Op.identity) :=
  ⟨by decide, by decide, gen_sym_head⟩

theorem claimC5_witness :
    (GroupOps.mk [Op.identity, Op.mk ⟨⟨0, 0, 1⟩, ⟨1, 0, 0⟩, ⟨0, 1, 0⟩⟩ ⟨0, 0, 0⟩]
        [Vec3.zero]).sym_ops.head? = some Op.identity :=
  claimC5.2.2 "p 3*" _ (by decide)

/-- C1: for every invertible Op (rotation determinant plus or minus 1, the
ops for which `inverse` succeeds), combining the op with its inverse yields
the identity operation `x,y,z`, and inverting the inverse gives back the op
(equality in the spec's canonical sense: the canonical form of the op). -/
theorem claimC1 (op opi : Op) (h : op.inverse = some opi) :
    op.combine opi = Op.identity ∧ (op.combine opi).triplet = "x,y,z" ∧
    opi.inverse = some op.canon := by
  unfold Op.inverse at h
  by_cases hd : op.rot.det = 1 ∨ op.rot.det = -1
  · rw [if_pos hd] at h
    have hop := Option.some.inj h
    subst hop
    have hdd : op.rot.det * op.rot.det = 1 := by
      rcases hd with h1 | h1 <;> rw [h1] <;> norm_num
    have hRI : op.rot.mul (Mat3.smul op.rot.det op.rot.adj) = Mat3.id := by
      rw [Mat3.mul_smul_right, Mat3.mul_adj, Mat3.smul_smul, hdd, Mat3.one_smul]
    have hv : op.rot.mulVec
        (Vec3.smul (-1) ((Mat3.smul op.rot.det op.rot.adj).mulVec op.tran))
        = Vec3.smul (-1) op.tran := by
      rw [Mat3.mulVec_smul, ← Mat3.mul_mulVec, hRI, Mat3.id_mulVec]
    have hcomb : op.combine
        (Op.mk (Mat3.smul op.rot.det op.rot.adj)
          ((Vec3.smul (-1) ((Mat3.smul op.rot.det op.rot.adj).mulVec op.tran)).emod TDEN))
        = Op.identity := by
      unfold Op.combine Op.identity
      dsimp only
      rw [Op.mk.injEq]
      refine ⟨hRI, ?_⟩
      rw [vec_emod_absorb, hv, vec_neg_add_self, vec_zero_emod]
    refine ⟨hcomb, ?_, ?_⟩
    · rw [hcomb]; decide
    · have hdet2 : (Mat3.smul op.rot.det op.rot.adj).det = op.rot.det := by
        rw [Mat3.det_smul, Mat3.det_adj]
        linear_combination (op.rot.det ^ 3 + op.rot.det) * hdd
      have hadj2 : Mat3.smul op.rot.det (Mat3.smul op.rot.det op.rot.adj).adj = op.rot := by
        rw [Mat3.adj_smul, Mat3.adj_adj, Mat3.smul_smul, Mat3.smul_smul]
        have h4 : op.rot.det * op.rot.det ^ 2 * op.rot.det = 1 := by
          linear_combination (op.rot.det * op.rot.det + 1) * hdd
        rw [h4, Mat3.one_smul]
      unfold Op.inverse
      dsimp only
      rw [hdet2, if_pos hd, hadj2]
      unfold Op.canon
      rw [Option.some.injEq, Op.mk.injEq]
      refine ⟨rfl, ?_⟩
      rw [vec_smulneg_mulvec_emod, hv, vec_negneg]
  · rw [if_neg hd] at h
    exact Option.noConfusion h

theorem claimC1_witness :
    (Op.mk Mat3.id ⟨12, 0, 0⟩).combine (Op.mk Mat3.id ⟨12, 0, 0⟩) = Op.identity ∧
    ((Op.mk Mat3.id ⟨12, 0, 0⟩).combine (Op.mk Mat3.id ⟨12, 0, 0⟩)).triplet = "x,y,z" ∧
    (Op.mk Mat3.id ⟨12, 0, 0⟩).inverse = some (Op.mk Mat3.id ⟨12, 0, 0⟩).canon :=
  claimC1 (Op.mk Mat3.id ⟨12, 0, 0⟩) (Op.mk Mat3.id ⟨12, 0, 0⟩) (by decide)
